import Mathlib

/-! Verification of the data-access module `classApi.js` of the classrooms
repository, against its natural-language specification.

The module is shallowly embedded: JavaScript values are an inductive type
`JSVal` (numbers are rationals plus an explicit NaN; the IEEE-float artifacts
signed zero and the infinities are outside the model), documents are
association lists of fields, and the hosted document store is a `Store`
record.  Each exported function of the module is translated to a pure Lean
function; functions that talk to the backend produce the list of write
operations they issue (so batching and ordering are visible) together with a
state-transformer obtained by applying those operations to a `Store`. -/

namespace ClassApi

/-- A JavaScript number: NaN or a finite value, modelled as a rational. -/
inductive JSNum where
  | nan
  | num (q : ℚ)

/-- A JavaScript value as the module manipulates them: numbers, strings,
booleans, null, undefined and plain objects (association lists of fields). -/
inductive JSVal where
  | vnum (x : JSNum)
  | vstr (s : String)
  | vbool (b : Bool)
  | vnull
  | vundefined
  | vobj (fields : List (String × JSVal))

/-- An object's fields. -/
abbrev Obj := List (String × JSVal)

/-- First-match field lookup; `none` models a missing property (undefined). -/
def lookupF : Obj → String → Option JSVal
  | [], _ => none
  | (k, v) :: fs, key => if k = key then some v else lookupF fs key

/-- Property access `o.k` on an object, with undefined for a missing key. -/
def jsGet (fs : Obj) (k : String) : JSVal := (lookupF fs k).getD .vundefined

/-- Property access `v.k` (also covering the optional chain `v?.k`): null and
undefined yield undefined, primitives have no own properties. -/
def optChain (v : JSVal) (k : String) : JSVal :=
  match v with
  | .vobj fs => jsGet fs k
  | _ => .vundefined

/-- JavaScript truthiness: undefined, null, false, NaN, 0 and "" are falsy. -/
def jsTruthy : JSVal → Bool
  | .vnum .nan => false
  | .vnum (.num q) => decide (q ≠ 0)
  | .vstr s => decide (s ≠ "")
  | .vbool b => b
  | .vnull => false
  | .vundefined => false
  | .vobj _ => true

/-- The JavaScript `a || b`: `a` when truthy, else `b`. -/
def jsOr (a b : JSVal) : JSVal := if jsTruthy a then a else b

/-- The JavaScript `a ?? b`: `b` exactly when `a` is null or undefined. -/
def nullish (a b : JSVal) : JSVal :=
  match a with
  | .vnull => b
  | .vundefined => b
  | v => v

/-- Numeric value of a digit run. -/
def digitsVal (cs : List Char) : ℕ := cs.foldl (fun n c => 10 * n + (c.toNat - 48)) 0

/-- Decimal literal: digits with an optional fractional part ("7", "7.", ".5"). -/
def parseUnsigned (cs : List Char) : Option ℚ :=
  let ip := cs.takeWhile Char.isDigit
  match cs.dropWhile Char.isDigit with
  | [] => if ip.isEmpty then none else some (digitsVal ip)
  | '.' :: fp =>
      if fp.all Char.isDigit ∧ ¬(ip.isEmpty ∧ fp.isEmpty) then
        some ((digitsVal ip : ℚ) + (digitsVal fp : ℚ) / (10 : ℚ) ^ fp.length)
      else none
  | _ => none

/-- Decimal literal with an optional sign. -/
def parseSigned : List Char → Option ℚ
  | '-' :: rest => (parseUnsigned rest).map Neg.neg
  | '+' :: rest => parseUnsigned rest
  | cs => parseUnsigned cs

/-- The string-to-number conversion used by `Number(s)`: trimmed whitespace,
empty means 0, otherwise a signed decimal literal; anything else is NaN.
(Hexadecimal, exponent and Infinity literals, which the module never feeds to
`toInt`, are simplified to NaN here.) -/
def strToNumber (s : String) : JSNum :=
  let t := ((s.data.dropWhile Char.isWhitespace).reverse.dropWhile Char.isWhitespace).reverse
  if t.isEmpty then .num 0
  else
    match parseSigned t with
    | some q => .num q
    | none => .nan

/-- The `Number(v)` coercion: strings parse as decimals, booleans are 0/1,
null is 0, undefined and plain objects are NaN. -/
def toNumber : JSVal → JSNum
  | .vnum x => x
  | .vstr s => strToNumber s
  | .vbool b => .num (if b then 1 else 0)
  | .vnull => .num 0
  | .vundefined => .nan
  | .vobj _ => .nan

/-- Value of `x || 0` for a number `x`: the falsy numbers NaN and 0 become 0. -/
def orZero : JSNum → ℚ
  | .nan => 0
  | .num q => q

/-- `Math.trunc`: truncation toward zero. -/
def ratTrunc (q : ℚ) : ℤ := if 0 ≤ q then ⌊q⌋ else -⌊-q⌋

/-- Integer value of `toInt(n) = Math.max(0, Math.trunc(Number(n) || 0))`. -/
def toIntZ (v : JSVal) : ℤ := max 0 (ratTrunc (orZero (toNumber v)))

/-- The module's `toInt`, as a JavaScript-value to JavaScript-value map. -/
def toInt (v : JSVal) : JSVal := .vnum (.num (toIntZ v))

/-- Assigning field `k` in an object literal: the first binding of `k` is
replaced in place, otherwise the binding is appended. -/
def setF : Obj → String → JSVal → Obj
  | [], k, v => [(k, v)]
  | (k2, w) :: fs, k, v => if k2 = k then (k, v) :: fs else (k2, w) :: setF fs k v

/-- Spreading `extra` onto `fs` in an object literal (`\x7b...fs, ...extra\x7d`):
the bindings of `extra` are assigned left to right, so its later bindings win. -/
def spreadF (fs extra : Obj) : Obj := extra.foldl (fun acc p => setF acc p.1 p.2) fs

/-- Size bound for the merge functions' termination measure. -/
def lookupF_size_le : (gs : Obj) → (k : String) → sizeOf (lookupF gs k) ≤ sizeOf gs
  | [], _ => by simp [lookupF]
  | (a, w) :: rest, k => by
    by_cases hak : a = k
    · simp [lookupF, hak]; omega
    · have := lookupF_size_le rest k
      simp [lookupF, hak]; omega

mutual

/-- The backend's merge-write semantics for one field value: maps (objects)
are merged recursively, any other new value replaces the old one. -/
def mergeVal : JSVal → JSVal → JSVal
  | .vobj fs, .vobj gs =>
      .vobj (mergeFields fs gs ++ gs.filter (fun q => (lookupF fs q.1).isNone))
  | _, b => b
termination_by a b => sizeOf a + sizeOf b
decreasing_by all_goals (simp; try omega)

/-- One old field after a merge-write, given the new data's binding for its
key: merged when the new data binds the key, kept otherwise. -/
def mergeEntry (v : JSVal) : Option JSVal → JSVal
  | some w => mergeVal v w
  | none => v
termination_by o => sizeOf v + sizeOf o
decreasing_by all_goals (simp; try omega)

/-- The old document's fields after a merge-write: each field that the new
data also binds is merged with the new value, the others are kept. -/
def mergeFields : Obj → Obj → Obj
  | [], _ => []
  | (k, v) :: fs, gs => (k, mergeEntry v (lookupF gs k)) :: mergeFields fs gs
termination_by fs gs => sizeOf fs + sizeOf gs
decreasing_by all_goals ((try have hx := lookupF_size_le gs k); simp; try omega)

end

/-- A document after a merge-write of `new` onto `old`: the old fields,
merged pointwise, followed by the fields only the new data binds. -/
def mergeDoc (old new : Obj) : Obj :=
  mergeFields old new ++ new.filter (fun q => (lookupF old q.1).isNone)

/-- The document store as the module sees it: class documents keyed by class
id at `classes/{cid}`, student documents keyed by class and student id at
`classes/{cid}/students/{sid}` (path braces written literally in comments
only). -/
structure Store where
  classes : List (String × Obj)
  students : List ((String × String) × Obj)

/-- Path of a class document. -/
def classPath (cid : String) : List String := ["classes", cid]

/-- Path of a student document. -/
def stuPath (cid sid : String) : List String := ["classes", cid, "students", sid]

/-- A single write operation of the backend: a (merge) set or a delete. -/
inductive Op where
  | set (path : List String) (data : Obj) (merge : Bool)
  | del (path : List String)

/-- First-match lookup of a class document's data. -/
def findCls : List (String × Obj) → String → Option Obj
  | [], _ => none
  | (k, d) :: rest, cid => if k = cid then some d else findCls rest cid

/-- First-match lookup of a student document's data. -/
def findStu : List ((String × String) × Obj) → String → String → Option Obj
  | [], _, _ => none
  | (k, d) :: rest, cid, sid =>
      if k.1 = cid ∧ k.2 = sid then some d else findStu rest cid sid

/-- Replace the first binding of a class document. -/
def putCls : List (String × Obj) → String → Obj → List (String × Obj)
  | [], cid, d => [(cid, d)]
  | (k, e) :: rest, cid, d =>
      if k = cid then (k, d) :: rest else (k, e) :: putCls rest cid d

/-- Replace the first binding of a student document. -/
def putStu : List ((String × String) × Obj) → String → String → Obj →
    List ((String × String) × Obj)
  | [], cid, sid, d => [((cid, sid), d)]
  | (k, e) :: rest, cid, sid, d =>
      if k.1 = cid ∧ k.2 = sid then (k, d) :: rest else (k, e) :: putStu rest cid sid d

/-- Apply one write operation to the store; a set with `merge` performs the
backend's recursive merge into the existing document. -/
def applyOp (st : Store) : Op → Store
  | .set p data mrg =>
    match p with
    | ["classes", cid] =>
      (match findCls st.classes cid with
       | some old =>
           { st with classes := putCls st.classes cid (if mrg then mergeDoc old data else data) }
       | none => { st with classes := st.classes ++ [(cid, data)] })
    | ["classes", cid, "students", sid] =>
      (match findStu st.students cid sid with
       | some old =>
           { st with students := putStu st.students cid sid (if mrg then mergeDoc old data else data) }
       | none => { st with students := st.students ++ [((cid, sid), data)] })
    | _ => st
  | .del p =>
    match p with
    | ["classes", cid] =>
        { st with classes := st.classes.filter (fun r => !(r.1 == cid)) }
    | ["classes", cid, "students", sid] =>
        { st with students := st.students.filter (fun r => !(r.1.1 == cid && r.1.2 == sid)) }
    | _ => st

/-- Apply a list of operations in order (one batch commit, or a sequence of
awaited single writes: the resulting state is the same). -/
def applyOps (st : Store) (l : List Op) : Store := l.foldl applyOp st

/-- Apply a sequence of commits in order. -/
def applyCommits (st : Store) (cs : List (List Op)) : Store := cs.foldl applyOps st

/-- Numeric-aware, case-insensitive collation key: maximal digit runs become
numeric tokens, other characters become lower-cased character tokens; tokens
compare lexicographically.  This models the comparison
`a.localeCompare(b, undefined, numeric and base sensitivity)` that
`listClasses` uses, for strings of ASCII letters, digits and spaces.  The
accumulator carries the value of the digit run being read. -/
def keyTokensAux : Option ℕ → List Char → List (Lex (ℕ × ℕ))
  | acc, [] => (match acc with | some n => [toLex (0, n)] | none => [])
  | acc, c :: cs =>
    if c.isDigit then keyTokensAux (some (10 * acc.getD 0 + (c.toNat - 48))) cs
    else (match acc with | some n => [toLex (0, n)] | none => []) ++
      toLex (1, c.toLower.toNat) :: keyTokensAux none cs

/-- Collation key of a whole string. -/
def collKey (s : String) : List (Lex (ℕ × ℕ)) := keyTokensAux none s.data

/-- A row of `listClasses`' result.  The third field models the source's
`idPrefix` property. -/
structure ClassRow where
  id : String
  displayName : String
  idPref : String

/-- String content of a value; the module only feeds strings to the collator,
so non-strings (which JavaScript would coerce) are out of the model's scope. -/
def asStr : JSVal → String
  | .vstr s => s
  | _ => ""

/-- One class document mapped to a row: `displayName` falls back to the
document id, `idPrefix` to the empty string, when missing or falsy. -/
def classRow (d : String × Obj) : ClassRow :=
  { id := d.1
  , displayName := asStr (jsOr (jsGet d.2 "displayName") (.vstr d.1))
  , idPref := asStr (jsOr (jsGet d.2 "idPrefix") (.vstr "")) }

/-- The sort comparator of `listClasses`. -/
def rowLe (a b : ClassRow) : Bool := decide (collKey a.displayName ≤ collKey b.displayName)

/-- `listClasses`: map every class document to a row, sort by display name. -/
def listClasses (docs : List (String × Obj)) : List ClassRow :=
  (docs.map classRow).mergeSort rowLe

/-- The flattened number `watchClass` exposes for one points subfield: the
stored `points.total` / `points.daily` when `points` is truthy and the
subfield a number (`typeof` check), else 0. -/
def pointsField (s : Obj) (k : String) : JSVal :=
  if jsTruthy (jsGet s "points") then
    (match optChain (jsGet s "points") k with
     | .vnum x => .vnum x
     | _ => .vnum (.num 0))
  else .vnum (.num 0)

/-- One student row as `watchClass` delivers it to `onStudents`. -/
def studentRow (sid : String) (s : Obj) : Obj :=
  [ ("id", .vstr sid)
  , ("name", jsOr (jsGet s "name") (.vstr ""))
  , ("points", pointsField s "total")
  , ("daily", pointsField s "daily")
  , ("_raw", .vobj s) ]

/-- `createClass`: validation, then a single merge-write keyed by the display
name; `now` stands for the clock reading `Date.now()` takes. -/
def createClassOps (displayName idPref : String) (now : ℤ) : Except String (List Op) :=
  if displayName = "" ∨ idPref = "" then .error "displayName and idPrefix required"
  else .ok [.set (classPath displayName)
    [ ("displayName", .vstr displayName)
    , ("idPrefix", .vstr idPref)
    , ("createdAt", .vnum (.num (now : ℚ))) ] true]

/-- `createClass` applied to a store. -/
def createClass (st : Store) (displayName idPref : String) (now : ℤ) :
    Except String Store :=
  (createClassOps displayName idPref now).map (applyOps st)

/-- The delete of one student document. -/
def stuDelOp (cid sid : String) : Op := .del (stuPath cid sid)

/-- The student documents of one class, in store order (the snapshot the
module iterates). -/
def studentsOf (st : Store) (cid : String) : List (String × Obj) :=
  (st.students.filter (fun r => r.1.1 == cid)).map (fun r => (r.1.2, r.2))

/-- The student ids of one class. -/
def studentIds (st : Store) (cid : String) : List String :=
  (studentsOf st cid).map Prod.fst

/-- The batching loop of `deleteClass`: an operation counter that commits the
running batch whenever it reaches a multiple of 400, and a final commit of
the leftover batch (possibly empty, as in the source). -/
def delLoop (cid : String) : List String → List Op → ℕ → List (List Op)
  | [], batch, _ => [batch]
  | sid :: rest, batch, ops =>
    if (ops + 1) % 400 = 0 then
      (batch ++ [stuDelOp cid sid]) :: delLoop cid rest [] (ops + 1)
    else delLoop cid rest (batch ++ [stuDelOp cid sid]) (ops + 1)

/-- The commit sequence `deleteClass` issues: batched student deletions,
then the class-document delete. -/
def deleteClassCommits (st : Store) (cid : String) : List (List Op) :=
  delLoop cid (studentIds st cid) [] 0 ++ [[Op.del (classPath cid)]]

/-- `deleteClass` applied to a store. -/
def deleteClass (st : Store) (cid : String) : Store :=
  applyCommits st (deleteClassCommits st cid)

/-- `getStudent`: the spread of the document's data onto its id
(`\x7bid, ...data\x7d`); `none` when the document does not exist.  A stored
document's field names are unique, so the spread is rendered in the
lookup-equivalent form: the data's own `id` wins, otherwise the document id
is added. -/
def getStudent (st : Store) (cid sid : String) : Option Obj :=
  (findStu st.students cid sid).map (fun d =>
    match lookupF d "id" with
    | some _ => d
    | none => d ++ [("id", .vstr sid)])

/-- `setStudent`: one merge-write of partial fields. -/
def setStudentOp (cid sid : String) (fields : Obj) : Op := .set (stuPath cid sid) fields true

/-- `setStudent` applied to a store. -/
def setStudent (st : Store) (cid sid : String) (fields : Obj) : Store :=
  applyOp st (setStudentOp cid sid fields)

/-- `normalizeStudent`: the canonical shape from the legacy field variants,
then the literal `\x7b...base, id, points, ..._extra\x7d`. -/
def extraOf (s : Obj) : Obj :=
  match jsGet s "_extra" with
  | .vobj fs => fs
  | _ => []

def normalizeStudent (s : Obj) : Obj :=
  let nm := nullish (jsGet s "name") (.vstr "")
  let daily := nullish (jsGet s "daily") (optChain (jsGet s "points") "daily")
  let total := nullish (optChain (jsGet s "points") "total")
                 (nullish (jsGet s "total") (jsGet s "points"))
  let pts : JSVal := .vobj
    [ ("daily", toInt (jsOr daily (.vnum (.num 0))))
    , ("total", toInt (jsOr total (.vnum (.num 0)))) ]
  spreadF (setF (setF [("name", nm), ("points", .vobj [])] "id" (jsGet s "id")) "points" pts)
    (extraOf s)

/-- The id of one add/edit entry: `s.id || required(...)`, plus the backend's
requirement that a document path segment is a string.  `which` is the label
`required` puts in its error message. -/
def entryId (which : String) (s : Obj) : Except String String :=
  if jsTruthy (jsGet s "id") then
    (match jsGet s "id" with
     | .vstr t => .ok t
     | _ => .error "document path segment must be a string")
  else .error ("Missing: " ++ which)

/-- The merge-set operations for a list of add/edit entries; the first entry
without a usable id aborts the batch before it is committed. -/
def setEntries (cid which : String) : List Obj → Except String (List Op)
  | [] => .ok []
  | s :: rest => do
    let i ← entryId which s
    let ops ← setEntries cid which rest
    .ok (.set (stuPath cid i) (normalizeStudent s) true :: ops)

/-- The single commit `saveStudentsBatch` builds: deletions first, then the
normalized merge-sets of adds and edits. -/
def saveStudentsBatchOps (cid : String) (adds edits : List Obj) (dels : List String) :
    Except String (List Op) := do
  let aOps ← setEntries cid "adds[].id" adds
  let eOps ← setEntries cid "edits[].id" edits
  .ok (dels.map (stuDelOp cid) ++ aOps ++ eOps)

/-- `saveStudentsBatch` applied to a store: the commit happens only when no
entry aborted the batch. -/
def saveStudentsBatch (st : Store) (cid : String) (adds edits : List Obj)
    (dels : List String) : Store :=
  match saveStudentsBatchOps cid adds edits dels with
  | .ok ops => applyOps st ops
  | .error _ => st

/-- Addition of two JavaScript numbers. -/
def jsAdd (a b : JSNum) : JSNum :=
  match a, b with
  | .num p, .num q => .num (p + q)
  | _, _ => .nan

/-- The default points object `\x7bdaily: 0, total: 0\x7d`. -/
def zeroPts : JSVal := .vobj [("daily", .vnum (.num 0)), ("total", .vnum (.num 0))]

/-- The write `incrementPoints` issues: read the current points (an empty
object when the student is absent), add the deltas to the `toInt`-coerced
current values, write back. -/
def incrementPointsOp (st : Store) (cid sid : String) (dd dt : JSNum) : Op :=
  let cur : Obj := (getStudent st cid sid).getD []
  let pts : JSVal := jsOr (jsGet cur "points") zeroPts
  .set (stuPath cid sid)
    [("points", .vobj
      [ ("daily", .vnum (jsAdd (.num ((toIntZ (optChain pts "daily") : ℚ))) dd))
      , ("total", .vnum (jsAdd (.num ((toIntZ (optChain pts "total") : ℚ))) dt)) ])] true

/-- `incrementPoints` applied to a store. -/
def incrementPoints (st : Store) (cid sid : String) (dd dt : JSNum) : Store :=
  applyOp st (incrementPointsOp st cid sid dd dt)

/-- The writes `resetDaily` issues: none when the student is absent, else
daily 0 and the `toInt`-coerced current total. -/
def resetDailyOps (st : Store) (cid sid : String) : List Op :=
  match getStudent st cid sid with
  | none => []
  | some cur =>
    [.set (stuPath cid sid)
      [("points", .vobj
        [ ("daily", .vnum (.num 0))
        , ("total", .vnum (.num ((toIntZ (optChain (jsGet cur "points") "total") : ℚ)))) ])] true]

/-- `resetDaily` applied to a store. -/
def resetDaily (st : Store) (cid sid : String) : Store := applyOps st (resetDailyOps st cid sid)

/-- The writes `resetTotal` issues: none when the student is absent, else
the `toInt`-coerced current daily and total 0. -/
def resetTotalOps (st : Store) (cid sid : String) : List Op :=
  match getStudent st cid sid with
  | none => []
  | some cur =>
    [.set (stuPath cid sid)
      [("points", .vobj
        [ ("daily", .vnum (.num ((toIntZ (optChain (jsGet cur "points") "daily") : ℚ))))
        , ("total", .vnum (.num 0)) ])] true]

/-- `resetTotal` applied to a store. -/
def resetTotal (st : Store) (cid sid : String) : Store := applyOps st (resetTotalOps st cid sid)

/-- The batch `addDailyToAll` issues: for every student of the class, the
whole document spread with points daily+1 / total+1 (one commit, not
chunked). -/
def addDailyToAllOps (st : Store) (cid : String) : List Op :=
  (studentsOf st cid).map (fun r =>
    let pts : JSVal := jsOr (jsGet r.2 "points") zeroPts
    .set (stuPath cid r.1)
      (setF r.2 "points" (.vobj
        [ ("daily", .vnum (.num ((toIntZ (optChain pts "daily") + 1 : ℤ) : ℚ)))
        , ("total", .vnum (.num ((toIntZ (optChain pts "total") + 1 : ℤ) : ℚ))) ])) true)

/-- `addDailyToAll` applied to a store. -/
def addDailyToAll (st : Store) (cid : String) : Store := applyOps st (addDailyToAllOps st cid)

/-- The stored points subfield `k` of one student document. -/
def storedPts (st : Store) (cid sid k : String) : Option JSVal :=
  match findStu st.students cid sid with
  | some d =>
    (match lookupF d "points" with
     | some (.vobj pf) => lookupF pf k
     | _ => none)
  | none => none

/-- Non-negativity of an optional written value: a present value must be a
non-negative (finite) number; an absent one is unconstrained. -/
def valNonneg : Option JSVal → Bool
  | some (.vnum (.num q)) => decide (0 ≤ q)
  | some _ => false
  | none => true

/-- The written data's points, when present, have non-negative daily and
total subfields. -/
def nonnegPoints (d : Obj) : Bool :=
  match lookupF d "points" with
  | some (.vobj pf) => valNonneg (lookupF pf "daily") && valNonneg (lookupF pf "total")
  | some _ => false
  | none => true

/-- A write operation whose points fields, if any, are non-negative. -/
def opNonnegPoints : Op → Bool
  | .set _ d _ => nonnegPoints d
  | .del _ => true

/-- The stored number behind one flattened row field: present exactly when
`points` is truthy and the subfield is of number type. -/
def storedNum (s : Obj) (k : String) : Option JSNum :=
  if jsTruthy (jsGet s "points") then
    (match optChain (jsGet s "points") k with
     | .vnum x => some x
     | _ => none)
  else none

/-- An add/edit entry without a usable id: `s.id` missing or falsy. -/
def idFalsy (s : Obj) : Bool := !jsTruthy (jsGet s "id")

/-- An add/edit entry whose id, when truthy, is a string (the shape every
well-formed caller passes, since document ids are strings). -/
def idTyped (s : Obj) : Bool :=
  match jsGet s "id" with
  | .vstr _ => true
  | v => !jsTruthy v

theorem toIntZ_nonneg (v : JSVal) : 0 ≤ toIntZ v := le_max_left 0 _

theorem ratTrunc_intCast (k : ℤ) : ratTrunc (k : ℚ) = k := by
  unfold ratTrunc
  by_cases h : (0 : ℚ) ≤ (k : ℚ)
  · simp [h, Int.floor_intCast]
  · have : ((-k : ℤ) : ℚ) = -(k : ℚ) := by push_cast; ring
    simp only [h, if_false]
    rw [show -(k : ℚ) = ((-k : ℤ) : ℚ) by push_cast; ring, Int.floor_intCast]
    omega

theorem toIntZ_intCast_nonneg (k : ℤ) (hk : 0 ≤ k) :
    toIntZ (.vnum (.num (k : ℚ))) = k := by
  unfold toIntZ toNumber orZero
  rw [ratTrunc_intCast]
  omega

/-- C2: `toInt` is idempotent on every input, always returns a non-negative
integer, and returns 0 on every input whose numeric conversion is NaN
(a non-numeric input). -/
theorem toInt_idempotent_nonneg_default (v : JSVal) :
    toInt (toInt v) = toInt v ∧
    (∃ n : ℕ, toInt v = .vnum (.num (n : ℚ))) ∧
    (toNumber v = .nan → toInt v = .vnum (.num 0)) := by
  refine ⟨?_, ?_, ?_⟩
  · show toInt (.vnum (.num (toIntZ v : ℚ))) = _
    unfold toInt
    rw [toIntZ_intCast_nonneg (toIntZ v) (toIntZ_nonneg v)]
  · refine ⟨(toIntZ v).toNat, ?_⟩
    have h := Int.toNat_of_nonneg (toIntZ_nonneg v)
    unfold toInt
    congr 2
    exact_mod_cast h.symm
  · intro h
    unfold toInt toIntZ
    rw [h]
    simp [orZero, ratTrunc]

theorem mergeVal_obj (fs gs : Obj) :
    mergeVal (.vobj fs) (.vobj gs) = .vobj (mergeDoc fs gs) := by
  rw [mergeVal]
  rfl

theorem mergeVal_of_not_obj (a b : JSVal) (h : ∀ gs, b ≠ .vobj gs) :
    mergeVal a b = b := by
  cases a <;> cases b <;> first
    | exact absurd rfl (h _)
    | (rw [mergeVal] <;> simp)

theorem lookupF_append (as bs : Obj) (k : String) :
    lookupF (as ++ bs) k =
      match lookupF as k with
      | some v => some v
      | none => lookupF bs k := by
  induction as with
  | nil => simp [lookupF]
  | cons p rest ih =>
    obtain ⟨a, w⟩ := p
    by_cases h : a = k <;> simp [lookupF, h, ih]

theorem lookupF_setF (fs : Obj) (a k : String) (v : JSVal) :
    lookupF (setF fs a v) k = if a = k then some v else lookupF fs k := by
  induction fs with
  | nil =>
    by_cases h : a = k <;> simp [setF, lookupF, h]
  | cons p rest ih =>
    obtain ⟨b, w⟩ := p
    by_cases hb : b = a
    · subst hb
      by_cases h : b = k <;> simp [setF, lookupF, h]
    · by_cases h : b = k
      · subst h
        have hab : ¬(a = b) := fun hh => hb hh.symm
        simp [setF, lookupF, hb, hab]
      · simp [setF, lookupF, hb, h, ih]

theorem lookupF_spreadF (fs ex : Obj) (k : String) :
    lookupF (spreadF fs ex) k =
      match lookupF ex.reverse k with
      | some v => some v
      | none => lookupF fs k := by
  induction ex generalizing fs with
  | nil => simp [spreadF, lookupF]
  | cons p rest ih =>
    obtain ⟨a, v⟩ := p
    show lookupF (spreadF (setF fs a v) rest) k = _
    rw [ih]
    rw [show (⟨a, v⟩ :: rest : Obj).reverse = rest.reverse ++ [(a, v)] by simp]
    rw [lookupF_append]
    cases hr : lookupF rest.reverse k
    · by_cases h : a = k <;> simp [lookupF, h, lookupF_setF]
    · rfl

theorem lookupF_eq_none_iff (l : Obj) (k : String) :
    lookupF l k = none ↔ ∀ v, (k, v) ∉ l := by
  induction l with
  | nil => simp [lookupF]
  | cons p rest ih =>
    obtain ⟨a, w⟩ := p
    by_cases h : a = k
    · subst h
      constructor
      · intro hh
        simp [lookupF] at hh
      · intro hh
        exact absurd (List.mem_cons_self _ _) (hh w)
    · rw [show lookupF ((a, w) :: rest) k = lookupF rest k by simp [lookupF, h]]
      rw [ih]
      constructor
      · intro hh v hv
        rcases List.mem_cons.mp hv with h1 | h1
        · injection h1 with h1a h1b
          exact h h1a.symm
        · exact hh v h1
      · intro hh v hv
        exact hh v (List.mem_cons_of_mem _ hv)

theorem lookupF_reverse_eq_none (l : Obj) (k : String)
    (h : lookupF l k = none) : lookupF l.reverse k = none := by
  rw [lookupF_eq_none_iff] at h ⊢
  intro v hv
  exact h v (List.mem_reverse.mp hv)

theorem lookupF_mergeFields (old new : Obj) (k : String) :
    lookupF (mergeFields old new) k =
      (lookupF old k).map (fun v => mergeEntry v (lookupF new k)) := by
  induction old with
  | nil => simp [mergeFields, lookupF]
  | cons p rest ih =>
    obtain ⟨a, v⟩ := p
    by_cases h : a = k
    · subst h
      simp [mergeFields, lookupF]
    · simp [mergeFields, lookupF, h, ih]

theorem lookupF_filter_absent (old new : Obj) (k : String) :
    lookupF (new.filter (fun q => (lookupF old q.1).isNone)) k =
      match lookupF old k with
      | some _ => none
      | none => lookupF new k := by
  induction new with
  | nil => cases lookupF old k <;> simp [lookupF]
  | cons p rest ih =>
    obtain ⟨a, v⟩ := p
    by_cases h : a = k
    · subst h
      cases ho : lookupF old a <;> simp [lookupF, List.filter, ho, ih]
    · cases ho : lookupF old a <;>
        cases hc : (lookupF old a).isNone <;>
        simp [ho] at hc <;>
        simp [lookupF, List.filter, ho, h, ih, hc]

theorem lookupF_mergeDoc (old new : Obj) (k : String) :
    lookupF (mergeDoc old new) k =
      match lookupF old k, lookupF new k with
      | some v, some w => some (mergeVal v w)
      | some v, none => some v
      | none, o => o := by
  unfold mergeDoc
  rw [lookupF_append, lookupF_mergeFields, lookupF_filter_absent]
  cases ho : lookupF old k <;> cases hn : lookupF new k <;> simp [mergeEntry]

theorem putCls_findCls (l : List (String × Obj)) (cid : String) (d : Obj) :
    findCls (putCls l cid d) cid = some d := by
  induction l with
  | nil => simp [putCls, findCls]
  | cons p rest ih =>
    obtain ⟨k, e⟩ := p
    by_cases h : k = cid <;> simp [putCls, findCls, h, ih]

theorem putStu_findStu (l : List ((String × String) × Obj)) (cid sid : String) (d : Obj) :
    findStu (putStu l cid sid d) cid sid = some d := by
  induction l with
  | nil => simp [putStu, findStu]
  | cons p rest ih =>
    obtain ⟨k, e⟩ := p
    by_cases h : k.1 = cid ∧ k.2 = sid <;> simp [putStu, findStu, h, ih]

theorem findCls_append_none (l : List (String × Obj)) (cid : String) (d : Obj)
    (h : findCls l cid = none) : findCls (l ++ [(cid, d)]) cid = some d := by
  induction l with
  | nil => simp [findCls]
  | cons p rest ih =>
    obtain ⟨k, e⟩ := p
    by_cases hk : k = cid
    · simp [findCls, hk] at h
    · simp only [findCls, hk, if_false] at h
      simp [findCls, hk, ih h]

theorem findStu_append_none (l : List ((String × String) × Obj)) (cid sid : String) (d : Obj)
    (h : findStu l cid sid = none) :
    findStu (l ++ [((cid, sid), d)]) cid sid = some d := by
  induction l with
  | nil => simp [findStu]
  | cons p rest ih =>
    obtain ⟨k, e⟩ := p
    by_cases hk : k.1 = cid ∧ k.2 = sid
    · simp [findStu, hk] at h
    · simp only [findStu, hk, if_false] at h
      simp [findStu, hk, ih h]

theorem applyOp_set_cls (st : Store) (cid : String) (data : Obj) :
    findCls (applyOp st (.set (classPath cid) data true)).classes cid =
      some (match findCls st.classes cid with
            | some old => mergeDoc old data
            | none => data) := by
  unfold applyOp classPath
  cases h : findCls st.classes cid <;>
    simp [h, putCls_findCls, findCls_append_none]

theorem applyOp_set_stu (st : Store) (cid sid : String) (data : Obj) :
    findStu (applyOp st (.set (stuPath cid sid) data true)).students cid sid =
      some (match findStu st.students cid sid with
            | some old => mergeDoc old data
            | none => data) := by
  unfold applyOp stuPath
  cases h : findStu st.students cid sid <;>
    simp [h, putStu_findStu, findStu_append_none]

theorem getStudent_some (st : Store) (cid sid : String) (d0 : Obj)
    (h : findStu st.students cid sid = some d0) :
    ∃ cur, getStudent st cid sid = some cur ∧
      ∀ k, k ≠ "id" → lookupF cur k = lookupF d0 k := by
  unfold getStudent
  rw [h]
  cases hid : lookupF d0 "id"
  · refine ⟨d0 ++ [("id", .vstr sid)], by simp [hid], fun k hk => ?_⟩
    rw [lookupF_append]
    cases hdk : lookupF d0 k
    · simp only [lookupF]
      rw [if_neg (fun hh => hk hh.symm)]
    · rfl
  · exact ⟨d0, by simp [hid], fun k hk => rfl⟩

theorem vstr_ne_vobj (t : String) : ∀ gs, JSVal.vstr t ≠ JSVal.vobj gs :=
  fun _ h => JSVal.noConfusion h

theorem vnum_ne_vobj (x : JSNum) : ∀ gs, JSVal.vnum x ≠ JSVal.vobj gs :=
  fun _ h => JSVal.noConfusion h

theorem lookupF_mergeDoc_replace (old data : Obj) (f : String) (v : JSVal)
    (hv : ∀ gs, v ≠ .vobj gs) (hd : lookupF data f = some v) :
    lookupF (mergeDoc old data) f = some v := by
  rw [lookupF_mergeDoc, hd]
  cases ho : lookupF old f <;> simp [mergeVal_of_not_obj _ _ hv]

/-- C8: `createClass` throws a validation error, before any write is issued,
exactly when the display name or the id prefix is empty; otherwise it issues
one merge-write keyed by the display name, after which the class document
under that key holds the given display name, id prefix and creation time. -/
theorem createClass_validation_and_merge_write
    (st : Store) (dn ip : String) (now : ℤ) :
    ((∃ e, createClassOps dn ip now = .error e) ↔ (dn = "" ∨ ip = "")) ∧
    (dn ≠ "" → ip ≠ "" →
      createClassOps dn ip now = .ok [.set (classPath dn)
        [ ("displayName", .vstr dn), ("idPrefix", .vstr ip)
        , ("createdAt", .vnum (.num (now : ℚ))) ] true] ∧
      ∃ st2, createClass st dn ip now = .ok st2 ∧
        ∃ d, findCls st2.classes dn = some d ∧
          lookupF d "displayName" = some (.vstr dn) ∧
          lookupF d "idPrefix" = some (.vstr ip) ∧
          lookupF d "createdAt" = some (.vnum (.num (now : ℚ)))) := by
  constructor
  · by_cases h : dn = "" ∨ ip = "" <;> simp [createClassOps, h]
  · intro hdn hip
    have hv : ¬(dn = "" ∨ ip = "") := by
      rintro (h | h)
      · exact hdn h
      · exact hip h
    have hops : createClassOps dn ip now = .ok [.set (classPath dn)
        [ ("displayName", .vstr dn), ("idPrefix", .vstr ip)
        , ("createdAt", .vnum (.num (now : ℚ))) ] true] := by
      simp [createClassOps, hv]
    refine ⟨hops, ?_⟩
    refine ⟨applyOps st [.set (classPath dn)
        [ ("displayName", .vstr dn), ("idPrefix", .vstr ip)
        , ("createdAt", .vnum (.num (now : ℚ))) ] true], ?_, ?_⟩
    · simp [createClass, hops, Except.map]
    · have happ := applyOp_set_cls st dn
        [ ("displayName", .vstr dn), ("idPrefix", .vstr ip)
        , ("createdAt", .vnum (.num (now : ℚ))) ]
      have happ2 : findCls (applyOps st [.set (classPath dn)
          [ ("displayName", .vstr dn), ("idPrefix", .vstr ip)
          , ("createdAt", .vnum (.num (now : ℚ))) ] true]).classes dn =
          some (match findCls st.classes dn with
                | some old => mergeDoc old
                    [ ("displayName", .vstr dn), ("idPrefix", .vstr ip)
                    , ("createdAt", .vnum (.num (now : ℚ))) ]
                | none =>
                    [ ("displayName", .vstr dn), ("idPrefix", .vstr ip)
                    , ("createdAt", .vnum (.num (now : ℚ))) ]) := by
        simpa [applyOps] using happ
      refine ⟨_, happ2, ?_, ?_, ?_⟩
      · cases hold : findCls st.classes dn
        · simp [lookupF]
        · exact lookupF_mergeDoc_replace _ _ _ _ (vstr_ne_vobj _) (by simp [lookupF])
      · cases hold : findCls st.classes dn
        · simp [lookupF]
        · exact lookupF_mergeDoc_replace _ _ _ _ (vstr_ne_vobj _) (by simp [lookupF])
      · cases hold : findCls st.classes dn
        · simp [lookupF]
        · exact lookupF_mergeDoc_replace _ _ _ _ (vnum_ne_vobj _) (by simp [lookupF])

/-- C9: every row `watchClass` hands to `onStudents` carries the raw record
in `_raw`, exposes the stored `points.total` as top-level `points` and
`points.daily` as top-level `daily` whenever the stored value is a number
behind a truthy `points`, and 0 otherwise (absent or non-number). -/
theorem watchClass_row_flattening (sid : String) (s : Obj) :
    lookupF (studentRow sid s) "_raw" = some (.vobj s) ∧
    (∀ x, storedNum s "total" = some x →
      lookupF (studentRow sid s) "points" = some (.vnum x)) ∧
    (storedNum s "total" = none →
      lookupF (studentRow sid s) "points" = some (.vnum (.num 0))) ∧
    (∀ x, storedNum s "daily" = some x →
      lookupF (studentRow sid s) "daily" = some (.vnum x)) ∧
    (storedNum s "daily" = none →
      lookupF (studentRow sid s) "daily" = some (.vnum (.num 0))) := by
  have hpts : ∀ k, pointsField s k =
      (match storedNum s k with
       | some x => .vnum x
       | none => .vnum (.num 0)) := by
    intro k
    unfold pointsField storedNum
    cases ht : jsTruthy (jsGet s "points")
    · simp
    · simp only [if_true]
      cases hoc : optChain (jsGet s "points") k <;> simp
  refine ⟨by simp [studentRow, lookupF], ?_, ?_, ?_, ?_⟩ <;>
    first
      | (intro x hx
         simp [studentRow, lookupF, hpts, hx])
      | (intro hx
         simp [studentRow, lookupF, hpts, hx])

/-- C10: a key bound in the `_extra` bag overrides the canonical field of the
same name in `normalizeStudent`'s output (here for `points`), and
`saveStudentsBatch` puts that output in the committed merge-set verbatim, so
an `_extra.points` value reaches the write without the `toInt` coercion. -/
theorem extra_bag_overrides_normalized_fields
    (s : Obj) (ex : Obj) (v : JSVal) (cid i : String) (dels : List String)
    (hex : jsGet s "_extra" = .vobj ex)
    (hv : lookupF ex.reverse "points" = some v)
    (hid : jsGet s "id" = .vstr i) (hi : i ≠ "") :
    lookupF (normalizeStudent s) "points" = some v ∧
    saveStudentsBatchOps cid [s] [] dels =
      .ok (dels.map (stuDelOp cid) ++ [.set (stuPath cid i) (normalizeStudent s) true]) := by
  constructor
  · unfold normalizeStudent
    rw [show extraOf s = ex by unfold extraOf; rw [hex]]
    rw [lookupF_spreadF]
    rw [hv]
  · have hentry : entryId "adds[].id" s = .ok i := by
      unfold entryId
      rw [hid]
      simp [jsTruthy, hi]
    unfold saveStudentsBatchOps
    unfold setEntries
    rw [hentry]
    simp [setEntries]
    rfl

theorem extra_bag_override_witness :
    lookupF (normalizeStudent
      [("id", .vstr "a"), ("_extra", .vobj [("points", .vnum (.num (-7)))])])
      "points" = some (.vnum (.num (-7))) ∧
    saveStudentsBatchOps "C"
        [[("id", .vstr "a"), ("_extra", .vobj [("points", .vnum (.num (-7)))])]] [] [] =
      .ok ([].map (stuDelOp "C") ++
        [.set (stuPath "C" "a")
          (normalizeStudent
            [("id", .vstr "a"), ("_extra", .vobj [("points", .vnum (.num (-7)))])]) true]) :=
  extra_bag_overrides_normalized_fields
    [("id", .vstr "a"), ("_extra", .vobj [("points", .vnum (.num (-7)))])]
    [("points", .vnum (.num (-7)))] (.vnum (.num (-7))) "C" "a" []
    rfl rfl rfl (by decide)

theorem setEntries_error_missing (cid which : String) (l : List Obj)
    (ht : ∀ s ∈ l, idTyped s = true) (hm : ∃ s ∈ l, idFalsy s = true) :
    setEntries cid which l = .error ("Missing: " ++ which) := by
  induction l with
  | nil => simp at hm
  | cons a rest ih =>
    by_cases ha : idFalsy a = true
    · have hea : entryId which a = .error ("Missing: " ++ which) := by
        unfold idFalsy at ha
        simp only [Bool.not_eq_true'] at ha
        unfold entryId
        simp [ha]
      unfold setEntries
      rw [hea]
      rfl
    · have hta := ht a (List.mem_cons_self _ _)
      have hok : ∃ t, entryId which a = .ok t := by
        unfold idFalsy at ha
        simp only [Bool.not_eq_true', Bool.not_eq_false] at ha
        unfold idTyped at hta
        unfold entryId
        cases hg : jsGet a "id" <;> rw [hg] at ha hta <;> simp [ha] at hta ⊢
      rcases hok with ⟨t, het⟩
      have hm2 : ∃ s ∈ rest, idFalsy s = true := by
        rcases hm with ⟨s, hs, hfs⟩
        rcases List.mem_cons.mp hs with rfl | hs2
        · exact absurd hfs ha
        · exact ⟨s, hs2, hfs⟩
      have ht2 : ∀ s ∈ rest, idTyped s = true :=
        fun s hs => ht s (List.mem_cons_of_mem _ hs)
      unfold setEntries
      rw [het, ih ht2 hm2]
      rfl

theorem setEntries_ok_exists (cid which : String) (l : List Obj)
    (h : ∀ s ∈ l, idFalsy s = false ∧ idTyped s = true) :
    ∃ ops, setEntries cid which l = .ok ops := by
  induction l with
  | nil => exact ⟨[], rfl⟩
  | cons a rest ih =>
    obtain ⟨hfa, hta⟩ := h a (List.mem_cons_self _ _)
    have hok : ∃ t, entryId which a = .ok t := by
      unfold idFalsy at hfa
      simp only [Bool.not_eq_false'] at hfa
      unfold idTyped at hta
      unfold entryId
      cases hg : jsGet a "id" <;> rw [hg] at hfa hta <;> simp [hfa] at hta ⊢
    rcases hok with ⟨t, het⟩
    rcases ih (fun s hs => h s (List.mem_cons_of_mem _ hs)) with ⟨rops, hr⟩
    refine ⟨.set (stuPath cid t) (normalizeStudent a) true :: rops, ?_⟩
    unfold setEntries
    rw [het, hr]
    rfl

/-- C4: when some add or edit entry of `saveStudentsBatch` lacks an id
(missing or falsy), and ids are strings as document ids are, the call fails
with a missing-id error and the store is untouched: no write of the call,
the listed deletions included, is committed. -/
theorem saveStudentsBatch_missing_id_fails_uncommitted
    (st : Store) (cid : String) (adds edits : List Obj) (dels : List String)
    (ht : ∀ s ∈ adds ++ edits, idTyped s = true)
    (hm : ∃ s ∈ adds ++ edits, idFalsy s = true) :
    (∃ which, saveStudentsBatchOps cid adds edits dels =
      .error ("Missing: " ++ which)) ∧
    saveStudentsBatch st cid adds edits dels = st := by
  have hta : ∀ s ∈ adds, idTyped s = true :=
    fun s hs => ht s (List.mem_append_left _ hs)
  have hte : ∀ s ∈ edits, idTyped s = true :=
    fun s hs => ht s (List.mem_append_right _ hs)
  by_cases hma : ∃ s ∈ adds, idFalsy s = true
  · have he := setEntries_error_missing cid "adds[].id" adds hta hma
    have hops : saveStudentsBatchOps cid adds edits dels =
        .error ("Missing: " ++ "adds[].id") := by
      unfold saveStudentsBatchOps
      rw [he]
      rfl
    exact ⟨⟨"adds[].id", hops⟩, by simp [saveStudentsBatch, hops]⟩
  · have hgood : ∀ s ∈ adds, idFalsy s = false := by
      intro s hs
      by_contra hc
      simp only [Bool.not_eq_false] at hc
      exact hma ⟨s, hs, hc⟩
    rcases setEntries_ok_exists cid "adds[].id" adds
        (fun s hs => ⟨hgood s hs, hta s hs⟩) with ⟨aOps, ha⟩
    have hme : ∃ s ∈ edits, idFalsy s = true := by
      rcases hm with ⟨s, hs, hfs⟩
      rcases List.mem_append.mp hs with hs2 | hs2
      · exact absurd ⟨s, hs2, hfs⟩ hma
      · exact ⟨s, hs2, hfs⟩
    have he := setEntries_error_missing cid "edits[].id" edits hte hme
    have hops : saveStudentsBatchOps cid adds edits dels =
        .error ("Missing: " ++ "edits[].id") := by
      unfold saveStudentsBatchOps
      rw [ha, he]
      rfl
    exact ⟨⟨"edits[].id", hops⟩, by simp [saveStudentsBatch, hops]⟩

theorem saveStudentsBatch_missing_id_witness :
    (∃ which, saveStudentsBatchOps "C" [[("name", .vstr "A")]] [] ["b"] =
      .error ("Missing: " ++ which)) ∧
    saveStudentsBatch ⟨[], [(("C", "b"), [])]⟩ "C" [[("name", .vstr "A")]] [] ["b"] =
      ⟨[], [(("C", "b"), [])]⟩ :=
  saveStudentsBatch_missing_id_fails_uncommitted ⟨[], [(("C", "b"), [])]⟩ "C"
    [[("name", .vstr "A")]] [] ["b"] (by decide) (by decide)

theorem valNonneg_toInt (v : JSVal) : valNonneg (some (toInt v)) = true := by
  simp only [toInt, valNonneg, decide_eq_true_eq]
  exact_mod_cast toIntZ_nonneg v

theorem valNonneg_intCast (k : ℤ) (hk : 0 ≤ k) :
    valNonneg (some (.vnum (.num (k : ℚ)))) = true := by
  simp only [valNonneg, decide_eq_true_eq]
  exact_mod_cast hk

theorem opNonnegPoints_set (p : List String) (d : Obj) (m : Bool) :
    opNonnegPoints (.set p d m) = nonnegPoints d := rfl

theorem nonnegPoints_points_obj (pf : Obj) :
    nonnegPoints [("points", .vobj pf)] =
      (valNonneg (lookupF pf "daily") && valNonneg (lookupF pf "total")) := by
  unfold nonnegPoints
  simp [lookupF]

theorem lookupF_normalizeStudent_points (s : Obj)
    (h : lookupF (extraOf s) "points" = none) :
    lookupF (normalizeStudent s) "points" =
      some (.vobj
        [ ("daily", toInt (jsOr (nullish (jsGet s "daily")
            (optChain (jsGet s "points") "daily")) (.vnum (.num 0))))
        , ("total", toInt (jsOr (nullish (optChain (jsGet s "points") "total")
            (nullish (jsGet s "total") (jsGet s "points"))) (.vnum (.num 0)))) ]) := by
  have h2 := lookupF_reverse_eq_none _ _ h
  simp only [normalizeStudent]
  rw [lookupF_spreadF, h2, lookupF_setF]
  simp

theorem nonnegPoints_normalizeStudent (s : Obj)
    (h : lookupF (extraOf s) "points" = none) :
    nonnegPoints (normalizeStudent s) = true := by
  unfold nonnegPoints
  rw [lookupF_normalizeStudent_points s h]
  simp [lookupF, valNonneg_toInt]

/-- C1 as amended: along every write path of the module the points fields
written are non-negative, provided the `incrementPoints` deltas are
non-negative numbers and no `_extra` bag overrides the `points` field (the
two escapes the counterexample exhibits): `normalizeStudent`'s output and
every operation committed by `saveStudentsBatch`, `incrementPoints`,
`resetDaily`, `resetTotal` and `addDailyToAll` then carry only non-negative
`points.daily` and `points.total`. -/
theorem writePaths_points_nonneg_unless_overridden :
    (∀ (st : Store) (cid sid : String) (qd qt : ℚ), 0 ≤ qd → 0 ≤ qt →
      opNonnegPoints (incrementPointsOp st cid sid (.num qd) (.num qt)) = true) ∧
    (∀ s : Obj, lookupF (extraOf s) "points" = none →
      nonnegPoints (normalizeStudent s) = true) ∧
    (∀ (cid : String) (adds edits : List Obj) (dels : List String) (ops : List Op),
      (∀ s ∈ adds, lookupF (extraOf s) "points" = none) →
      (∀ s ∈ edits, lookupF (extraOf s) "points" = none) →
      saveStudentsBatchOps cid adds edits dels = .ok ops →
      ∀ op ∈ ops, opNonnegPoints op = true) ∧
    (∀ (st : Store) (cid sid : String),
      ∀ op ∈ resetDailyOps st cid sid, opNonnegPoints op = true) ∧
    (∀ (st : Store) (cid sid : String),
      ∀ op ∈ resetTotalOps st cid sid, opNonnegPoints op = true) ∧
    (∀ (st : Store) (cid : String),
      ∀ op ∈ addDailyToAllOps st cid, opNonnegPoints op = true) := by
  have hsetE : ∀ (cid which : String) (l : List Obj) (ops : List Op),
      (∀ s ∈ l, lookupF (extraOf s) "points" = none) →
      setEntries cid which l = .ok ops →
      ∀ op ∈ ops, opNonnegPoints op = true := by
    intro cid which l
    induction l with
    | nil =>
      intro ops _ h op hop
      unfold setEntries at h
      cases h
      simp at hop
    | cons a rest ih =>
      intro ops hx h op hop
      unfold setEntries at h
      cases hea : entryId which a <;> rw [hea] at h
      · exact Except.noConfusion h
      · cases her : setEntries cid which rest <;> rw [her] at h
        · exact Except.noConfusion h
        · rename_i t rops
          have h2 : (Except.ok (Op.set (stuPath cid t) (normalizeStudent a) true :: rops) :
              Except String (List Op)) = .ok ops := h
          injection h2 with h3
          subst h3
          rcases List.mem_cons.mp hop with rfl | hop2
          · rw [opNonnegPoints_set]
            exact nonnegPoints_normalizeStudent a (hx a (List.mem_cons_self _ _))
          · exact ih _ (fun s hs => hx s (List.mem_cons_of_mem _ hs)) her op hop2
  refine ⟨?_, ?_, ?_, ?_, ?_, ?_⟩
  · intro st cid sid qd qt hqd hqt
    simp only [incrementPointsOp, opNonnegPoints_set, nonnegPoints_points_obj]
    rw [Bool.and_eq_true]
    constructor
    · simp [lookupF, jsAdd, valNonneg]
      exact add_nonneg (by exact_mod_cast toIntZ_nonneg _) hqd
    · simp [lookupF, jsAdd, valNonneg]
      exact add_nonneg (by exact_mod_cast toIntZ_nonneg _) hqt
  · exact fun s h => nonnegPoints_normalizeStudent s h
  · intro cid adds edits dels ops hxa hxe h op hop
    unfold saveStudentsBatchOps at h
    cases hea : setEntries cid "adds[].id" adds <;> rw [hea] at h
    · exact Except.noConfusion h
    · cases hee : setEntries cid "edits[].id" edits <;> rw [hee] at h
      · exact Except.noConfusion h
      · rename_i aOps2 eOps2
        have h2 : (Except.ok (dels.map (stuDelOp cid) ++ aOps2 ++ eOps2) :
            Except String (List Op)) = .ok ops := h
        injection h2 with h3
        subst h3
        rcases List.mem_append.mp hop with hop2 | hop2
        · rcases List.mem_append.mp hop2 with hop3 | hop3
          · rcases List.mem_map.mp hop3 with ⟨i, _, rfl⟩
            rfl
          · exact hsetE cid "adds[].id" adds _ hxa hea op hop3
        · exact hsetE cid "edits[].id" edits _ hxe hee op hop2
  · intro st cid sid op hop
    unfold resetDailyOps at hop
    cases hg : getStudent st cid sid <;> rw [hg] at hop
    · simp at hop
    · rcases List.mem_singleton.mp hop with rfl
      rw [opNonnegPoints_set, nonnegPoints_points_obj]
      rw [Bool.and_eq_true]
      refine ⟨by simp [lookupF, valNonneg], ?_⟩
      simp [lookupF, valNonneg]
      exact_mod_cast toIntZ_nonneg _
  · intro st cid sid op hop
    unfold resetTotalOps at hop
    cases hg : getStudent st cid sid <;> rw [hg] at hop
    · simp at hop
    · rcases List.mem_singleton.mp hop with rfl
      rw [opNonnegPoints_set, nonnegPoints_points_obj]
      rw [Bool.and_eq_true]
      refine ⟨?_, by simp [lookupF, valNonneg]⟩
      simp [lookupF, valNonneg]
      exact_mod_cast toIntZ_nonneg _
  · intro st cid op hop
    unfold addDailyToAllOps at hop
    rcases List.mem_map.mp hop with ⟨r, _, rfl⟩
    rw [opNonnegPoints_set]
    unfold nonnegPoints
    rw [lookupF_setF, if_pos rfl]
    rw [Bool.and_eq_true]
    constructor
    · simp [lookupF, valNonneg]
      have := toIntZ_nonneg (optChain (jsOr (jsGet r.2 "points") zeroPts) "daily")
      exact_mod_cast add_nonneg this zero_le_one
    · simp [lookupF, valNonneg]
      have := toIntZ_nonneg (optChain (jsOr (jsGet r.2 "points") zeroPts) "total")
      exact_mod_cast add_nonneg this zero_le_one

/-- C1 counterexample: `incrementPoints` with delta -5 on a student whose
stored points are absent (so read as zero) writes points.daily = -5 and
points.total = -5, a write that violates the claimed non-negativity. -/
theorem incrementPoints_negative_delta_not_nonneg :
    opNonnegPoints (incrementPointsOp ⟨[], []⟩ "C" "s1" (.num (-5)) (.num (-5))) = false := by
  norm_num [incrementPointsOp, getStudent, findStu, jsGet, lookupF, jsOr, jsTruthy,
    optChain, zeroPts, toIntZ, toNumber, orZero, ratTrunc, jsAdd, opNonnegPoints,
    nonnegPoints, valNonneg]

theorem rowLe_trans : ∀ a b c : ClassRow,
    rowLe a b = true → rowLe b c = true → rowLe a c = true := by
  intro a b c hab hbc
  simp only [rowLe, decide_eq_true_eq] at hab hbc ⊢
  exact le_trans hab hbc

theorem rowLe_total : ∀ a b : ClassRow, (rowLe a b || rowLe b a) = true := by
  intro a b
  rcases le_total (collKey a.displayName) (collKey b.displayName) with h | h <;>
    simp [rowLe, h]

/-- C5: `listClasses` returns the class rows sorted ascending by display name
under the numeric-aware, case-insensitive collation (so "Class 2" strictly
precedes "Class 10" and case does not separate keys), as a permutation of one
row per class document, where a missing `displayName` defaults to the
document id and a missing `idPrefix` to the empty string. -/
theorem listClasses_sorted_with_defaults (docs : List (String × Obj)) :
    List.Pairwise (fun a b : ClassRow =>
      collKey a.displayName ≤ collKey b.displayName) (listClasses docs) ∧
    (listClasses docs).Perm (docs.map classRow) ∧
    (∀ cid data, lookupF data "displayName" = none →
      (classRow (cid, data)).displayName = cid) ∧
    (∀ cid data, lookupF data "idPrefix" = none →
      (classRow (cid, data)).idPref = "") ∧
    collKey "Class 2" < collKey "Class 10" ∧
    collKey "class x" = collKey "CLASS X" := by
  refine ⟨?_, ?_, ?_, ?_, by decide, by decide⟩
  · have h := List.sorted_mergeSort rowLe_trans rowLe_total (docs.map classRow)
    exact h.imp (fun hab => by simpa [rowLe] using hab)
  · exact List.mergeSort_perm _ _
  · intro cid data h
    simp [classRow, jsGet, h, jsOr, jsTruthy, asStr]
  · intro cid data h
    simp [classRow, jsGet, h, jsOr, jsTruthy, asStr]

theorem incrementPoints_once (st : Store) (cid sid : String) (d0 pf : Obj)
    (nd nt : ℕ) (dd dt : ℚ)
    (h1 : findStu st.students cid sid = some d0)
    (h2 : lookupF d0 "points" = some (.vobj pf))
    (h3 : lookupF pf "daily" = some (.vnum (.num (nd : ℚ))))
    (h4 : lookupF pf "total" = some (.vnum (.num (nt : ℚ)))) :
    ∃ d1 pf1,
      findStu (incrementPoints st cid sid (.num dd) (.num dt)).students cid sid = some d1 ∧
      lookupF d1 "points" = some (.vobj pf1) ∧
      lookupF pf1 "daily" = some (.vnum (.num ((nd : ℚ) + dd))) ∧
      lookupF pf1 "total" = some (.vnum (.num ((nt : ℚ) + dt))) := by
  obtain ⟨cur, hcur, hlook⟩ := getStudent_some st cid sid d0 h1
  have hcurpts : jsGet cur "points" = .vobj pf := by
    unfold jsGet
    rw [hlook "points" (by decide), h2]
    rfl
  have hd : toIntZ (jsGet pf "daily") = (nd : ℤ) := by
    unfold jsGet
    rw [h3]
    show toIntZ (.vnum (.num (nd : ℚ))) = (nd : ℤ)
    rw [show ((nd : ℚ)) = (((nd : ℤ) : ℚ)) by push_cast; ring]
    exact toIntZ_intCast_nonneg _ (by positivity)
  have ht : toIntZ (jsGet pf "total") = (nt : ℤ) := by
    unfold jsGet
    rw [h4]
    show toIntZ (.vnum (.num (nt : ℚ))) = (nt : ℤ)
    rw [show ((nt : ℚ)) = (((nt : ℤ) : ℚ)) by push_cast; ring]
    exact toIntZ_intCast_nonneg _ (by positivity)
  have hop : incrementPointsOp st cid sid (.num dd) (.num dt) =
      .set (stuPath cid sid)
        [("points", .vobj
          [ ("daily", .vnum (.num ((nd : ℚ) + dd)))
          , ("total", .vnum (.num ((nt : ℚ) + dt))) ])] true := by
    simp only [incrementPointsOp, hcur, Option.getD_some, hcurpts]
    rw [show jsOr (.vobj pf) zeroPts = .vobj pf by simp [jsOr, jsTruthy]]
    show Op.set _ [("points", .vobj
      [ ("daily", .vnum (jsAdd (.num ((toIntZ (jsGet pf "daily") : ℚ))) (.num dd)))
      , ("total", .vnum (jsAdd (.num ((toIntZ (jsGet pf "total") : ℚ))) (.num dt))) ])] true = _
    rw [hd, ht]
    simp [jsAdd]
  have happ := applyOp_set_stu st cid sid
    [("points", .vobj
      [ ("daily", .vnum (.num ((nd : ℚ) + dd)))
      , ("total", .vnum (.num ((nt : ℚ) + dt))) ])]
  rw [h1] at happ
  refine ⟨mergeDoc d0
      [("points", .vobj
        [ ("daily", .vnum (.num ((nd : ℚ) + dd)))
        , ("total", .vnum (.num ((nt : ℚ) + dt))) ])],
    mergeDoc pf
      [ ("daily", .vnum (.num ((nd : ℚ) + dd)))
      , ("total", .vnum (.num ((nt : ℚ) + dt))) ], ?_, ?_, ?_, ?_⟩
  · show findStu (applyOp st (incrementPointsOp st cid sid (.num dd) (.num dt))).students cid sid = _
    rw [hop]
    exact happ
  · rw [lookupF_mergeDoc, h2]
    simp only [lookupF, String.reduceEq, if_pos, ite_true]
    rw [mergeVal_obj]
  · exact lookupF_mergeDoc_replace _ _ _ _ (vnum_ne_vobj _) (by simp [lookupF])
  · exact lookupF_mergeDoc_replace _ _ _ _ (vnum_ne_vobj _) (by simp [lookupF])

/-- C6: two sequential `incrementPoints` calls with deltas daily 2 / total 2
on a student stored with points daily 0 / total 0 leave the stored points at
daily 4 / total 4. -/
theorem incrementPoints_twice_from_zero (st : Store) (cid sid : String) (d0 pf : Obj)
    (h1 : findStu st.students cid sid = some d0)
    (h2 : lookupF d0 "points" = some (.vobj pf))
    (h3 : lookupF pf "daily" = some (.vnum (.num 0)))
    (h4 : lookupF pf "total" = some (.vnum (.num 0))) :
    storedPts (incrementPoints (incrementPoints st cid sid (.num 2) (.num 2))
      cid sid (.num 2) (.num 2)) cid sid "daily" = some (.vnum (.num 4)) ∧
    storedPts (incrementPoints (incrementPoints st cid sid (.num 2) (.num 2))
      cid sid (.num 2) (.num 2)) cid sid "total" = some (.vnum (.num 4)) := by
  obtain ⟨d1, pf1, g1, g2, g3, g4⟩ :=
    incrementPoints_once st cid sid d0 pf 0 0 2 2 h1 h2 (by simpa using h3) (by simpa using h4)
  obtain ⟨d2, pf2, k1, k2, k3, k4⟩ :=
    incrementPoints_once _ cid sid d1 pf1 2 2 2 2 g1 g2 (by simpa using g3) (by simpa using g4)
  constructor
  · simp only [storedPts, k1, k2, k3]
    norm_num
  · simp only [storedPts, k1, k2, k4]
    norm_num

theorem incrementPoints_twice_witness :
    storedPts (incrementPoints (incrementPoints
        (⟨[], [(("C", "s1"),
          [("points", .vobj [("daily", .vnum (.num 0)), ("total", .vnum (.num 0))])])]⟩ : Store)
        "C" "s1" (.num 2) (.num 2)) "C" "s1" (.num 2) (.num 2)) "C" "s1" "daily" =
      some (.vnum (.num 4)) ∧
    storedPts (incrementPoints (incrementPoints
        (⟨[], [(("C", "s1"),
          [("points", .vobj [("daily", .vnum (.num 0)), ("total", .vnum (.num 0))])])]⟩ : Store)
        "C" "s1" (.num 2) (.num 2)) "C" "s1" (.num 2) (.num 2)) "C" "s1" "total" =
      some (.vnum (.num 4)) :=
  incrementPoints_twice_from_zero _ "C" "s1" _ _ rfl rfl rfl rfl

/-- C7 as amended: for an existing student, `resetDaily` writes points.daily
0 and writes back the `toInt` coercion of the stored points.total, so the
total is unchanged whenever it was a non-negative integer (the
counterexample shows a negative stored total being changed to 0); dually,
`resetTotal` writes points.total 0 and the coercion of the stored daily; for
an absent student both functions perform no write. -/
theorem resetDaily_resetTotal_amended (st : Store) (cid sid : String) :
    (findStu st.students cid sid = none →
      resetDaily st cid sid = st ∧ resetTotal st cid sid = st) ∧
    (∀ d0 pf (q : ℚ),
      findStu st.students cid sid = some d0 →
      lookupF d0 "points" = some (.vobj pf) →
      lookupF pf "total" = some (.vnum (.num q)) →
      storedPts (resetDaily st cid sid) cid sid "daily" = some (.vnum (.num 0)) ∧
      ((∃ n : ℕ, q = (n : ℚ)) →
        storedPts (resetDaily st cid sid) cid sid "total" = some (.vnum (.num q)))) ∧
    (∀ d0 pf (q : ℚ),
      findStu st.students cid sid = some d0 →
      lookupF d0 "points" = some (.vobj pf) →
      lookupF pf "daily" = some (.vnum (.num q)) →
      storedPts (resetTotal st cid sid) cid sid "total" = some (.vnum (.num 0)) ∧
      ((∃ n : ℕ, q = (n : ℚ)) →
        storedPts (resetTotal st cid sid) cid sid "daily" = some (.vnum (.num q)))) := by
  refine ⟨?_, ?_, ?_⟩
  · intro h
    have hg : getStudent st cid sid = none := by
      unfold getStudent
      rw [h]
      rfl
    constructor
    · unfold resetDaily resetDailyOps
      rw [hg]
      rfl
    · unfold resetTotal resetTotalOps
      rw [hg]
      rfl
  · intro d0 pf q h1 h2 hq
    obtain ⟨cur, hcur, hlook⟩ := getStudent_some st cid sid d0 h1
    have hcurpts : jsGet cur "points" = .vobj pf := by
      unfold jsGet
      rw [hlook "points" (by decide), h2]
      rfl
    have hops : resetDailyOps st cid sid =
        [.set (stuPath cid sid)
          [("points", .vobj
            [ ("daily", .vnum (.num 0))
            , ("total", .vnum (.num ((toIntZ (.vnum (.num q)) : ℚ)))) ])] true] := by
      simp only [resetDailyOps, hcur]
      rw [hcurpts]
      simp only [optChain, jsGet, hq, Option.getD_some]
    have happ := applyOp_set_stu st cid sid
      [("points", .vobj
        [ ("daily", .vnum (.num 0))
        , ("total", .vnum (.num ((toIntZ (.vnum (.num q)) : ℚ)))) ])]
    rw [h1] at happ
    have hfinal : findStu (resetDaily st cid sid).students cid sid =
        some (mergeDoc d0
          [("points", .vobj
            [ ("daily", .vnum (.num 0))
            , ("total", .vnum (.num ((toIntZ (.vnum (.num q)) : ℚ)))) ])]) := by
      unfold resetDaily
      rw [hops]
      exact happ
    have hpts : lookupF (mergeDoc d0
        [("points", .vobj
          [ ("daily", .vnum (.num 0))
          , ("total", .vnum (.num ((toIntZ (.vnum (.num q)) : ℚ)))) ])]) "points" =
        some (.vobj (mergeDoc pf
          [ ("daily", .vnum (.num 0))
          , ("total", .vnum (.num ((toIntZ (.vnum (.num q)) : ℚ)))) ])) := by
      rw [lookupF_mergeDoc, h2]
      simp only [lookupF, String.reduceEq, if_pos, ite_true]
      rw [mergeVal_obj]
    constructor
    · simp only [storedPts, hfinal, hpts]
      exact lookupF_mergeDoc_replace _ _ _ _ (vnum_ne_vobj _) (by simp [lookupF])
    · rintro ⟨n, rfl⟩
      have hq2 : toIntZ (.vnum (.num (n : ℚ))) = (n : ℤ) := by
        rw [show ((n : ℚ)) = (((n : ℤ) : ℚ)) by push_cast; ring]
        exact toIntZ_intCast_nonneg _ (by positivity)
      simp only [storedPts, hfinal, hpts]
      have := lookupF_mergeDoc_replace pf
        [ ("daily", .vnum (.num 0))
        , ("total", .vnum (.num ((toIntZ (.vnum (.num (n : ℚ))) : ℚ)))) ]
        "total" (.vnum (.num ((toIntZ (.vnum (.num (n : ℚ))) : ℚ))))
        (vnum_ne_vobj _) (by simp [lookupF])
      rw [this, hq2]
      norm_num
  · intro d0 pf q h1 h2 hq
    obtain ⟨cur, hcur, hlook⟩ := getStudent_some st cid sid d0 h1
    have hcurpts : jsGet cur "points" = .vobj pf := by
      unfold jsGet
      rw [hlook "points" (by decide), h2]
      rfl
    have hops : resetTotalOps st cid sid =
        [.set (stuPath cid sid)
          [("points", .vobj
            [ ("daily", .vnum (.num ((toIntZ (.vnum (.num q)) : ℚ))))
            , ("total", .vnum (.num 0)) ])] true] := by
      simp only [resetTotalOps, hcur]
      rw [hcurpts]
      simp only [optChain, jsGet, hq, Option.getD_some]
    have happ := applyOp_set_stu st cid sid
      [("points", .vobj
        [ ("daily", .vnum (.num ((toIntZ (.vnum (.num q)) : ℚ))))
        , ("total", .vnum (.num 0)) ])]
    rw [h1] at happ
    have hfinal : findStu (resetTotal st cid sid).students cid sid =
        some (mergeDoc d0
          [("points", .vobj
            [ ("daily", .vnum (.num ((toIntZ (.vnum (.num q)) : ℚ))))
            , ("total", .vnum (.num 0)) ])]) := by
      unfold resetTotal
      rw [hops]
      exact happ
    have hpts : lookupF (mergeDoc d0
        [("points", .vobj
          [ ("daily", .vnum (.num ((toIntZ (.vnum (.num q)) : ℚ))))
          , ("total", .vnum (.num 0)) ])]) "points" =
        some (.vobj (mergeDoc pf
          [ ("daily", .vnum (.num ((toIntZ (.vnum (.num q)) : ℚ))))
          , ("total", .vnum (.num 0)) ])) := by
      rw [lookupF_mergeDoc, h2]
      simp only [lookupF, String.reduceEq, if_pos, ite_true]
      rw [mergeVal_obj]
    constructor
    · simp only [storedPts, hfinal, hpts]
      exact lookupF_mergeDoc_replace _ _ _ _ (vnum_ne_vobj _) (by simp [lookupF])
    · rintro ⟨n, rfl⟩
      have hq2 : toIntZ (.vnum (.num (n : ℚ))) = (n : ℤ) := by
        rw [show ((n : ℚ)) = (((n : ℤ) : ℚ)) by push_cast; ring]
        exact toIntZ_intCast_nonneg _ (by positivity)
      simp only [storedPts, hfinal, hpts]
      have := lookupF_mergeDoc_replace pf
        [ ("daily", .vnum (.num ((toIntZ (.vnum (.num (n : ℚ))) : ℚ))))
        , ("total", .vnum (.num 0)) ]
        "daily" (.vnum (.num ((toIntZ (.vnum (.num (n : ℚ))) : ℚ))))
        (vnum_ne_vobj _) (by simp [lookupF])
      rw [this, hq2]
      norm_num

/-- C7 counterexample: a student stored with points.total = -3 (a state the
module itself can produce, e.g. by incrementPoints with delta -3 from zero)
has its total changed to 0 by resetDaily, so the total is not left
unchanged. -/
theorem storedPts_eq (st : Store) (cid sid k : String) (d pf : Obj)
    (h1 : findStu st.students cid sid = some d)
    (h2 : lookupF d "points" = some (.vobj pf)) :
    storedPts st cid sid k = lookupF pf k := by
  simp only [storedPts, h1, h2]

theorem resetDaily_changes_negative_total :
    storedPts (⟨[], [(("C", "s1"),
        [("points", .vobj [("daily", .vnum (.num 0)), ("total", .vnum (.num (-3)))])])]⟩ : Store)
      "C" "s1" "total" = some (.vnum (.num (-3))) ∧
    storedPts (resetDaily (⟨[], [(("C", "s1"),
        [("points", .vobj [("daily", .vnum (.num 0)), ("total", .vnum (.num (-3)))])])]⟩ : Store)
      "C" "s1") "C" "s1" "total" = some (.vnum (.num 0)) ∧
    ((-3 : ℚ) ≠ 0) := by
  refine ⟨rfl, ?_, by norm_num⟩
  have hops : resetDailyOps (⟨[], [(("C", "s1"),
      [("points", .vobj [("daily", .vnum (.num 0)), ("total", .vnum (.num (-3)))])])]⟩ : Store)
      "C" "s1" =
      [.set (stuPath "C" "s1")
        [("points", .vobj [("daily", .vnum (.num 0)), ("total", .vnum (.num 0))])] true] := by
    rfl
  have hrd : resetDaily (⟨[], [(("C", "s1"),
      [("points", .vobj [("daily", .vnum (.num 0)), ("total", .vnum (.num (-3)))])])]⟩ : Store)
      "C" "s1" =
      applyOp (⟨[], [(("C", "s1"),
        [("points", .vobj [("daily", .vnum (.num 0)), ("total", .vnum (.num (-3)))])])]⟩ : Store)
        (.set (stuPath "C" "s1")
          [("points", .vobj [("daily", .vnum (.num 0)), ("total", .vnum (.num 0))])] true) := by
    unfold resetDaily
    rw [hops]
    rfl
  have happ2 : findStu (applyOp (⟨[], [(("C", "s1"),
      [("points", .vobj [("daily", .vnum (.num 0)), ("total", .vnum (.num (-3)))])])]⟩ : Store)
      (.set (stuPath "C" "s1")
        [("points", .vobj [("daily", .vnum (.num 0)), ("total", .vnum (.num 0))])] true)).students
      "C" "s1" =
      some (mergeDoc
        [("points", .vobj [("daily", .vnum (.num 0)), ("total", .vnum (.num (-3)))])]
        [("points", .vobj [("daily", .vnum (.num 0)), ("total", .vnum (.num 0))])]) :=
    applyOp_set_stu _ "C" "s1" _
  have hl : lookupF (mergeDoc
      [("points", .vobj [("daily", .vnum (.num 0)), ("total", .vnum (.num (-3)))])]
      [("points", .vobj [("daily", .vnum (.num 0)), ("total", .vnum (.num 0))])]) "points" =
      some (.vobj (mergeDoc
        [("daily", .vnum (.num 0)), ("total", .vnum (.num (-3)))]
        [("daily", .vnum (.num 0)), ("total", .vnum (.num 0))])) := by
    rw [lookupF_mergeDoc]
    show some (mergeVal (.vobj [("daily", .vnum (.num 0)), ("total", .vnum (.num (-3)))])
      (.vobj [("daily", .vnum (.num 0)), ("total", .vnum (.num 0))])) = _
    rw [mergeVal_obj]
  have htot : lookupF (mergeDoc
      [("daily", .vnum (.num 0)), ("total", .vnum (.num (-3)))]
      [("daily", .vnum (.num 0)), ("total", .vnum (.num 0))]) "total" =
      some (.vnum (.num 0)) :=
    lookupF_mergeDoc_replace _ _ _ _ (vnum_ne_vobj _) (by simp [lookupF])
  rw [hrd, storedPts_eq _ "C" "s1" "total" _ _ happ2 hl, htot]

theorem delLoop_commit_length (cid : String) (sids : List String) :
    ∀ (batch : List Op) (ops : ℕ), batch.length = ops % 400 →
    ∀ c ∈ delLoop cid sids batch ops, c.length ≤ 400 := by
  induction sids with
  | nil =>
    intro batch ops hb c hc
    unfold delLoop at hc
    rcases List.mem_singleton.mp hc with rfl
    omega
  | cons a rest ih =>
    intro batch ops hb c hc
    unfold delLoop at hc
    split at hc
    · rename_i hmod
      rcases List.mem_cons.mp hc with rfl | hc2
      · simp only [List.length_append, List.length_singleton]
        omega
      · exact ih [] (ops + 1) (by simp [hmod]) c hc2
    · rename_i hmod
      exact ih (batch ++ [stuDelOp cid a]) (ops + 1)
        (by simp only [List.length_append, List.length_singleton]; omega) c hc

theorem delLoop_stu_dels (cid : String) (sids : List String) :
    ∀ (batch : List Op) (ops : ℕ),
    (∀ op ∈ batch, ∃ sid, op = stuDelOp cid sid) →
    ∀ c ∈ delLoop cid sids batch ops, ∀ op ∈ c, ∃ sid, op = stuDelOp cid sid := by
  induction sids with
  | nil =>
    intro batch ops hb c hc
    rcases List.mem_singleton.mp hc with rfl
    exact hb
  | cons a rest ih =>
    intro batch ops hb c hc
    have hb2 : ∀ op ∈ batch ++ [stuDelOp cid a], ∃ sid, op = stuDelOp cid sid := by
      intro op hop
      rcases List.mem_append.mp hop with h | h
      · exact hb op h
      · rcases List.mem_singleton.mp h with rfl
        exact ⟨a, rfl⟩
    unfold delLoop at hc
    split at hc
    · rcases List.mem_cons.mp hc with rfl | hc2
      · exact hb2
      · exact ih [] (ops + 1) (by simp) c hc2
    · exact ih _ (ops + 1) hb2 c hc

theorem delLoop_flatten (cid : String) (sids : List String) :
    ∀ (batch : List Op) (ops : ℕ),
    (delLoop cid sids batch ops).flatten = batch ++ sids.map (stuDelOp cid) := by
  induction sids with
  | nil =>
    intro batch ops
    simp [delLoop]
  | cons a rest ih =>
    intro batch ops
    unfold delLoop
    split <;> simp [ih]

theorem applyOps_append (st : Store) (a b : List Op) :
    applyOps st (a ++ b) = applyOps (applyOps st a) b :=
  List.foldl_append _ _ _ _

theorem applyCommits_eq_flatten (st : Store) (cs : List (List Op)) :
    applyCommits st cs = applyOps st cs.flatten := by
  induction cs generalizing st with
  | nil => rfl
  | cons c rest ih =>
    show applyCommits (applyOps st c) rest = _
    rw [ih, List.flatten_cons, applyOps_append]

theorem applyOps_stuDels (cid : String) (L : List String) :
    ∀ st : Store,
    (applyOps st (L.map (stuDelOp cid))).classes = st.classes ∧
    (applyOps st (L.map (stuDelOp cid))).students =
      st.students.filter (fun r => !(r.1.1 == cid && decide (r.1.2 ∈ L))) := by
  induction L with
  | nil =>
    intro st
    exact ⟨rfl, by simp [applyOps]⟩
  | cons a rest ih =>
    intro st
    have hstep : applyOps st ((a :: rest).map (stuDelOp cid)) =
        applyOps (applyOp st (stuDelOp cid a)) (rest.map (stuDelOp cid)) := rfl
    rw [hstep]
    obtain ⟨hc, hs⟩ := ih (applyOp st (stuDelOp cid a))
    refine ⟨by rw [hc]; rfl, ?_⟩
    rw [hs]
    show (st.students.filter (fun r => !(r.1.1 == cid && r.1.2 == a))).filter _ = _
    rw [List.filter_filter]
    refine List.filter_congr ?_
    intro r _
    by_cases h1 : r.1.1 = cid <;> by_cases h2 : r.1.2 = a <;>
      by_cases h3 : r.1.2 ∈ rest <;> simp [h1, h2, h3]

theorem findStu_some_key (l : List ((String × String) × Obj)) (cid sid : String) (d : Obj)
    (h : findStu l cid sid = some d) : ∃ e ∈ l, e.1.1 = cid ∧ e.1.2 = sid := by
  induction l with
  | nil => simp [findStu] at h
  | cons p rest ih =>
    unfold findStu at h
    split at h
    · rename_i hp
      exact ⟨p, List.mem_cons_self _ _, hp⟩
    · rcases ih h with ⟨e, he, hk⟩
      exact ⟨e, List.mem_cons_of_mem _ he, hk⟩

theorem findCls_some_key (l : List (String × Obj)) (cid : String) (d : Obj)
    (h : findCls l cid = some d) : ∃ e ∈ l, e.1 = cid := by
  induction l with
  | nil => simp [findCls] at h
  | cons p rest ih =>
    unfold findCls at h
    split at h
    · rename_i hp
      exact ⟨p, List.mem_cons_self _ _, hp⟩
    · rcases ih h with ⟨e, he, hk⟩
      exact ⟨e, List.mem_cons_of_mem _ he, hk⟩

theorem studentIds_mem (st : Store) (cid : String)
    (e : (String × String) × Obj) (he : e ∈ st.students) (hc : e.1.1 = cid) :
    e.1.2 ∈ studentIds st cid := by
  unfold studentIds studentsOf
  refine List.mem_map.mpr ⟨(e.1.2, e.2), ?_, rfl⟩
  refine List.mem_map.mpr ⟨e, ?_, rfl⟩
  exact List.mem_filter.mpr ⟨he, by simp [hc]⟩

/-- C3: `deleteClass` deletes the class's student documents in commits of at
most 400 operations each, every one of those commits (which contain only
student deletions of that class) precedes the final class-document delete,
and afterwards no student document remains under the class and the class
document itself is absent. -/
theorem deleteClass_batches_and_clears (st : Store) (cid : String) :
    (∀ c ∈ deleteClassCommits st cid, c.length ≤ 400) ∧
    (∃ pre, deleteClassCommits st cid = pre ++ [[Op.del (classPath cid)]] ∧
      ∀ c ∈ pre, ∀ op ∈ c, ∃ sid, op = stuDelOp cid sid) ∧
    (∀ sid, findStu (deleteClass st cid).students cid sid = none) ∧
    findCls (deleteClass st cid).classes cid = none := by
  have hlen := delLoop_commit_length cid (studentIds st cid) [] 0 (by simp)
  have hdels := delLoop_stu_dels cid (studentIds st cid) [] 0 (by simp)
  have hform : deleteClass st cid =
      applyOp (applyOps st ((studentIds st cid).map (stuDelOp cid)))
        (Op.del (classPath cid)) := by
    unfold deleteClass
    rw [applyCommits_eq_flatten]
    unfold deleteClassCommits
    rw [List.flatten_append, delLoop_flatten]
    simp only [List.nil_append, List.flatten_cons, List.flatten_nil, List.append_nil]
    rw [applyOps_append]
    rfl
  obtain ⟨hcls, hstu⟩ := applyOps_stuDels cid (studentIds st cid) st
  refine ⟨?_, ⟨delLoop cid (studentIds st cid) [] 0, rfl, hdels⟩, ?_, ?_⟩
  · intro c hc
    unfold deleteClassCommits at hc
    rcases List.mem_append.mp hc with h | h
    · exact hlen c h
    · rcases List.mem_singleton.mp h with rfl
      simp
  · intro sid
    rw [hform]
    show findStu (applyOps st ((studentIds st cid).map (stuDelOp cid))).students cid sid = none
    rw [hstu]
    cases hfind : findStu (st.students.filter
        (fun r => !(r.1.1 == cid && decide (r.1.2 ∈ studentIds st cid)))) cid sid
    · rfl
    · exfalso
      rcases findStu_some_key _ _ _ _ hfind with ⟨e, he, hcid, hsid⟩
      have hmem := List.mem_filter.mp he
      have hid : e.1.2 ∈ studentIds st cid := studentIds_mem st cid e hmem.1 hcid
      have hpred := hmem.2
      simp [hcid, hid] at hpred
  · rw [hform]
    show findCls ((applyOps st ((studentIds st cid).map (stuDelOp cid))).classes.filter
      (fun r => !(r.1 == cid))) cid = none
    cases hfind : findCls ((applyOps st ((studentIds st cid).map (stuDelOp cid))).classes.filter
        (fun r => !(r.1 == cid))) cid
    · rfl
    · exfalso
      rcases findCls_some_key _ _ _ hfind with ⟨e, he, hcid⟩
      have hmem := List.mem_filter.mp he
      have hpred := hmem.2
      simp [hcid] at hpred

end ClassApi
